import Mathlib

/-!
# Verification of the UFO sighting data-cleaning pipeline

Shallow embedding of `01-Introduction/ufo.py`: a tab-separated record
loader (`load_data` / `fix_long_description`), two per-column validators
(`column_to_date` for `%Y%m%d` dates, `transform_locations` for
"city, state" strings) and an index-based row filter (`trim_indices`).
The embedding keeps the source's names and translates each Python
function, including the behaviour of the standard-library calls it uses
(`str.split`, `str.strip`, `str.upper`, slicing, and
`datetime.strptime` with format `%Y%m%d`).
-/

namespace UFO

/-- The six column names of the record table, in order
(`column_names` in the source). -/
def column_names : List String :=
  ["date_occurred", "date_reported", "location",
   "short_description", "duration", "long_description"]

/-- A location cell: either a raw string (as loaded, or re-emitted for a
comma-free location) or the `{'city': ..., 'state': ...}` dictionary
built by `transform_locations`. -/
inductive LocVal where
  | str (s : String)
  | cityState (city state : String)
deriving DecidableEq, Repr

/-- The record table (`data` dict in the source): one ordered sequence
per column.  The location column's cell type `L` is `String` after
loading and `LocVal` after the location transformation. -/
structure Table (L : Type) where
  date_occurred : List String
  date_reported : List String
  location : List L
  short_description : List String
  duration : List String
  long_description : List String
deriving DecidableEq, Repr

/-- The empty table built at the top of `load_data`. -/
def emptyTable : Table String := ⟨[], [], [], [], [], []⟩

/-! ## Models of the Python string primitives used by the source -/

/-- `str.split(sep)` for a one-character separator, over the character
list: splitting an empty string yields one empty group, every separator
occurrence starts a new group. -/
def splitCharAux (sep : Char) : List Char → List (List Char)
  | [] => [[]]
  | c :: rest =>
    match splitCharAux sep rest with
    | [] => [[]]
    | g :: gs => if c = sep then [] :: g :: gs else (c :: g) :: gs

/-- Python `s.split(sep)` for a single-character `sep`. -/
def pySplitChar (sep : Char) (s : String) : List String :=
  (splitCharAux sep s.data).map (fun cs => String.mk cs)

/-- The characters Python `str.strip()` removes (ASCII whitespace). -/
def pyIsSpace (c : Char) : Bool :=
  c = ' ' || c = '\t' || c = '\n' || c = '\r' ||
  c = Char.ofNat 11 || c = Char.ofNat 12

/-- Python `s.strip()`: drop leading and trailing whitespace. -/
def pyStrip (s : String) : String :=
  String.mk (((s.data.dropWhile pyIsSpace).reverse.dropWhile pyIsSpace).reverse)

/-- Python `s.upper()` (ASCII, which covers every string compared here). -/
def pyUpper (s : String) : String :=
  String.mk (s.data.map Char.toUpper)

/-- Python `s[:n]` (slicing by code points). -/
def pyTake (s : String) (n : Nat) : String :=
  String.mk (s.data.take n)

/-! ## Model of `datetime.strptime(s, '%Y%m%d')`

CPython compiles `%Y%m%d` to the regex
`(?P<Y>\d\d\d\d)(?P<m>1[0-2]|0[1-9]|[1-9])(?P<d>3[01]|[12]\d|0[1-9]|[1-9]| [1-9])`,
takes the first backtracking match, raises if the match does not cover
the whole string, and finally builds a `datetime`, which checks the day
against the month length and the year against `MINYEAR = 1`. -/

/-- Numeric value of a decimal digit character. -/
def digitVal (c : Char) : Nat := c.toNat - '0'.toNat

/-- The candidate parses of the month group `1[0-2]|0[1-9]|[1-9]`, in
regex alternation order, each with the remaining input. -/
def monthCands : List Char → List (Nat × List Char)
  | [] => []
  | [c1] => if c1.isDigit && c1 ≠ '0' then [(digitVal c1, [])] else []
  | c1 :: c2 :: rest =>
    (if c1 = '1' && (c2 = '0' || c2 = '1' || c2 = '2')
      then [(10 + digitVal c2, rest)] else []) ++
    (if c1 = '0' && c2.isDigit && c2 ≠ '0'
      then [(digitVal c2, rest)] else []) ++
    (if c1.isDigit && c1 ≠ '0'
      then [(digitVal c1, c2 :: rest)] else [])

/-- The candidate parses of the day group
`3[01]|[12]\d|0[1-9]|[1-9]| [1-9]`, in regex alternation order. -/
def dayCands : List Char → List (Nat × List Char)
  | [] => []
  | [c1] => if c1.isDigit && c1 ≠ '0' then [(digitVal c1, [])] else []
  | c1 :: c2 :: rest =>
    (if c1 = '3' && (c2 = '0' || c2 = '1')
      then [(30 + digitVal c2, rest)] else []) ++
    (if (c1 = '1' || c1 = '2') && c2.isDigit
      then [(10 * digitVal c1 + digitVal c2, rest)] else []) ++
    (if c1 = '0' && c2.isDigit && c2 ≠ '0'
      then [(digitVal c2, rest)] else []) ++
    (if c1.isDigit && c1 ≠ '0'
      then [(digitVal c1, c2 :: rest)] else []) ++
    (if c1 = ' ' && c2.isDigit && c2 ≠ '0'
      then [(digitVal c2, rest)] else [])

/-- Gregorian leap-year test, as in `datetime`. -/
def isLeap (y : Nat) : Bool := (y % 4 = 0 && y % 100 ≠ 0) || y % 400 = 0

/-- Days in a month, as checked by the `datetime` constructor. -/
def daysInMonth (y m : Nat) : Nat :=
  if m = 2 then (if isLeap y then 29 else 28)
  else if m = 4 || m = 6 || m = 9 || m = 11 then 30
  else 31

/-- `datetime.strptime(s, '%Y%m%d')`: `some (y, m, d)` when parsing
succeeds, `none` when any exception is raised. -/
def strptimeYmd (s : String) : Option (Nat × Nat × Nat) :=
  match s.data with
  | a :: b :: c :: d :: rest =>
    if a.isDigit && b.isDigit && c.isDigit && d.isDigit then
      let y := 1000 * digitVal a + 100 * digitVal b + 10 * digitVal c + digitVal d
      match (monthCands rest).findSome?
          (fun mc =>
            match dayCands mc.2 with
            | [] => none
            | dc :: _ => some (mc.1, dc.1, dc.2)) with
      | some (m, day, leftover) =>
        if leftover = [] && 1 ≤ y && day ≤ daysInMonth y m then
          some (y, m, day)
        else none
      | none => none
    else none
  | _ => none

/-- Whether `datetime.strptime(row, DATE_FORMAT)` succeeds, i.e. the
`try` body of `column_to_date` does not raise. -/
def date_valid (s : String) : Bool := (strptimeYmd s).isSome

/-! ## The pipeline functions -/

/-- The loop body of `column_to_date`, carrying the current row index:
on parse success append `row[:4]` to the transformed column, on failure
append the index to `bad_indices` (and, as in the source, append
nothing to the transformed column). -/
def column_to_date_go : List String → Nat → List String × List Nat
  | [], _ => ([], [])
  | row :: rest, i =>
    let (t, b) := column_to_date_go rest (i + 1)
    if date_valid row then (pyTake row 4 :: t, b) else (t, i :: b)

/-- `column_to_date`: transformed column plus bad row indices. -/
def column_to_date (col : List String) : List String × List Nat :=
  column_to_date_go col 0

/-- `transform_dates`: run `column_to_date` on both date columns,
store the transformed columns back, and concatenate the two bad-index
lists (occurred first). -/
def transform_dates {L : Type} (t : Table L) : Table L × List Nat :=
  let occ := column_to_date t.date_occurred
  let rep := column_to_date t.date_reported
  ({ t with date_occurred := occ.1, date_reported := rep.1 },
   occ.2 ++ rep.2)

/-- The 50 recognized US state abbreviations (`states` in the source). -/
def states : List String :=
  ["AK", "AL", "AR", "AZ", "CA", "CO", "CT", "DE", "FL", "GA", "HI", "IA", "ID",
   "IL", "IN", "KS", "KY", "LA", "MA", "MD", "ME", "MI", "MN", "MO", "MS", "MT",
   "NC", "ND", "NE", "NH", "NJ", "NM", "NV", "NY", "OH", "OK", "OR", "PA", "RI",
   "SC", "SD", "TN", "TX", "UT", "VA", "VT", "WA", "WI", "WV", "WY"]

/-- Whether a location row is accepted (not flagged): its comma-split
has exactly two parts and the second part, uppercased then stripped, is
a recognized state. -/
def locOK (row : String) : Bool :=
  let split := pySplitChar ',' row
  split.length = 2 && decide (pyStrip (pyUpper (split.getD 1 "")) ∈ states)

/-- The value `transform_locations` stores for a row: the sole split
part when the split has one part, otherwise the `{city, state}`
record built from the first two (raw, untrimmed) parts. -/
def locTransformVal (row : String) : LocVal :=
  let split := pySplitChar ',' row
  if split.length = 1 then LocVal.str (split.getD 0 "")
  else LocVal.cityState (split.getD 0 "") (split.getD 1 "")

/-- The loop of `transform_locations`, carrying the row index. -/
def transform_locations_go : List String → Nat → List LocVal × List Nat
  | [], _ => ([], [])
  | row :: rest, i =>
    let (t, b) := transform_locations_go rest (i + 1)
    (locTransformVal row :: t, if locOK row then b else i :: b)

/-- `transform_locations`: replace the location column by its
transformed values and return the flagged row indices. -/
def transform_locations (t : Table String) : Table LocVal × List Nat :=
  let r := transform_locations_go t.location 0
  ({ date_occurred := t.date_occurred, date_reported := t.date_reported,
     location := r.1, short_description := t.short_description,
     duration := t.duration, long_description := t.long_description },
   r.2)

/-- The list comprehension of `trim_indices`
(`[item for index, item in enumerate(rows) if index not in indices]`),
with the enumeration counter explicit. -/
def rmFrom {α : Type} (I : List Nat) : Nat → List α → List α
  | _, [] => []
  | k, x :: xs =>
    if k ∈ I then rmFrom I (k + 1) xs else x :: rmFrom I (k + 1) xs

/-- One column of `trim_indices`. -/
def removeIndices {α : Type} (xs : List α) (I : List Nat) : List α :=
  rmFrom I 0 xs

/-- `trim_indices`: drop the entries at the given indices from every
column. -/
def trim_indices {L : Type} (t : Table L) (I : List Nat) : Table L :=
  { date_occurred := removeIndices t.date_occurred I,
    date_reported := removeIndices t.date_reported I,
    location := removeIndices t.location I,
    short_description := removeIndices t.short_description I,
    duration := removeIndices t.duration I,
    long_description := removeIndices t.long_description I }

/-- The row indices, counted from `k`, whose entry fails the predicate
`P` — the common shape of the `bad_indices` lists produced by both
validators. -/
def flagsFrom {α : Type} (P : α → Bool) : Nat → List α → List Nat
  | _, [] => []
  | k, x :: xs =>
    if P x then flagsFrom P (k + 1) xs
    else k :: flagsFrom P (k + 1) xs

/-- Keep the entries of `xs` whose position (counted from `k`) is not in
`D` and whose aligned entry in `ls` passes `P`: the combined effect of
removing `D` and the `P`-failures in a single pass. -/
def keepBoth {α β : Type} (D : List Nat) (P : β → Bool) :
    Nat → List α → List β → List α
  | _, [], _ => []
  | _, _ :: _, [] => []
  | k, x :: xs, l :: ls =>
    if k ∈ D || !(P l) then keepBoth D P (k + 1) xs ls
    else x :: keepBoth D P (k + 1) xs ls

/-- The number of distinct in-range positions (below `n`) that belong
to the index collection `I`: how many entries a filter pass removes
from a column of length `n`. -/
def inRangeCount (I : List Nat) (n : Nat) : Nat :=
  ((List.range n).filter (fun i => decide (i ∈ I))).length

/-- `fix_long_description`: collect the tokens from the last expected
column onward, strip each, drop the empty ones, rejoin with two spaces,
store the result as the last column and truncate. -/
def fix_long_description (split_line : List String) : List String :=
  let last_column := column_names.length - 1
  let stragglers := split_line.drop last_column
  let merged :=
    String.intercalate "  " ((stragglers.map pyStrip).filter (fun s => s ≠ ""))
  (split_line.set last_column merged).take (last_column + 1)

/-- Append the available fields of a (possibly short) split line to the
columns, in column order: column `i` receives a value exactly when
`i < split_line.length`.  This is the inner `for i in range(6)` loop of
`load_data`, which appends column by column and raises at the first
missing field. -/
def appendCols (t : Table String) (sl : List String) : Table String :=
  { date_occurred :=
      t.date_occurred ++ if 0 < sl.length then [sl.getD 0 ""] else [],
    date_reported :=
      t.date_reported ++ if 1 < sl.length then [sl.getD 1 ""] else [],
    location :=
      t.location ++ if 2 < sl.length then [sl.getD 2 ""] else [],
    short_description :=
      t.short_description ++ if 3 < sl.length then [sl.getD 3 ""] else [],
    duration :=
      t.duration ++ if 4 < sl.length then [sl.getD 4 ""] else [],
    long_description :=
      t.long_description ++ if 5 < sl.length then [sl.getD 5 ""] else [] }

/-- The `try` body of `load_data`: split each line on tabs, repair long
descriptions, append the six fields.  A line with fewer than six fields
raises `IndexError` after its available fields were already appended;
the exception aborts the loop and is reported with `line_num`, the
count of fully processed lines. -/
def load_go : List String → Table String → Nat → Table String × Option Nat
  | [], t, _ => (t, none)
  | line :: rest, t, line_num =>
    let sl0 := pySplitChar '\t' line
    let sl := if column_names.length < sl0.length
              then fix_long_description sl0 else sl0
    let t' := appendCols t sl
    if sl.length < column_names.length then (t', some line_num)
    else load_go rest t' (line_num + 1)

/-- `load_data`, abstracted over the file's lines: the built table and,
when a structural parse error occurred, the logged line counter. -/
def load_data (lines : List String) : Table String × Option Nat :=
  load_go lines emptyTable 0

/-- A line that raises a structural parse error: fewer than six fields
even after long-description repair. -/
def structBad (line : String) : Bool :=
  (pySplitChar '\t' line).length < 6

/-- The cleanup sequence of `main`: transform dates, trim the bad date
rows, transform locations on the trimmed table, trim the bad location
rows. -/
def pipelineSequential (t : Table String) : Table LocVal :=
  let r1 := transform_dates t
  let t2 := trim_indices r1.1 r1.2
  let r2 := transform_locations t2
  trim_indices r2.1 r2.2

/-- Modelled from the spec: the single-pass variant it compares `main`
against — flag both index sets against the un-trimmed table, then
remove their union in one pass. -/
def pipelineUnion (t : Table String) : Table LocVal :=
  let r1 := transform_dates t
  let r2 := transform_locations r1.1
  trim_indices r2.1 (r1.2 ++ r2.2)

/-- All six columns of a table have equal length (the record-table
alignment invariant). -/
def wf {L : Type} (t : Table L) : Prop :=
  t.date_occurred.length = t.location.length ∧
  t.date_reported.length = t.location.length ∧
  t.short_description.length = t.location.length ∧
  t.duration.length = t.location.length ∧
  t.long_description.length = t.location.length

/-! ## Lemmas about the row filter -/

/-- Removing an empty index collection changes nothing. -/
theorem rmFrom_nil_indices {α : Type} (xs : List α) (k : Nat) :
    rmFrom [] k xs = xs := by
  induction xs generalizing k with
  | nil => rfl
  | cons x xs ih => simp [rmFrom, ih]

/-- Only membership of the index collection matters to the filter. -/
theorem rmFrom_congr {α : Type} (I J : List Nat) (xs : List α) (k : Nat)
    (h : ∀ i, k ≤ i → (i ∈ I ↔ i ∈ J)) :
    rmFrom I k xs = rmFrom J k xs := by
  induction xs generalizing k with
  | nil => rfl
  | cons x xs ih =>
    have hk : (k ∈ I) ↔ (k ∈ J) := h k (Nat.le_refl k)
    have htail := ih (k + 1) (fun i hi => h i (Nat.le_of_succ_le hi))
    by_cases hI : k ∈ I
    · simp only [rmFrom, if_pos hI, if_pos (hk.mp hI)]
      exact htail
    · simp only [rmFrom, if_neg hI, if_neg (fun hJ => hI (hk.mpr hJ))]
      rw [htail]

/-- The filter output is a sublist of its input: remaining elements keep
their original relative order. -/
theorem rmFrom_sublist {α : Type} (I : List Nat) (xs : List α) (k : Nat) :
    (rmFrom I k xs).Sublist xs := by
  induction xs generalizing k with
  | nil => simp [rmFrom]
  | cons x xs ih =>
    simp only [rmFrom]
    by_cases hI : k ∈ I
    · rw [if_pos hI]
      exact (ih (k + 1)).cons x
    · rw [if_neg hI]
      exact (ih (k + 1)).cons₂ x

/-- The filter commutes with mapping a function over the entries. -/
theorem rmFrom_map {α β : Type} (I : List Nat) (f : α → β) (xs : List α)
    (k : Nat) : rmFrom I k (xs.map f) = (rmFrom I k xs).map f := by
  induction xs generalizing k with
  | nil => rfl
  | cons x xs ih =>
    simp only [List.map_cons, rmFrom]
    by_cases hI : k ∈ I
    · simp [hI, ih]
    · simp [hI, ih]

/-- Output length: input length minus the number of distinct in-range
positions that belong to the index collection. -/
theorem rmFrom_length {α : Type} (I : List Nat) (xs : List α) (k : Nat) :
    (rmFrom I k xs).length =
      xs.length -
        (((List.range xs.length).map (fun j => j + k)).filter
          (fun i => decide (i ∈ I))).length := by
  induction xs generalizing k with
  | nil => rfl
  | cons x t ih =>
    have hmap : (List.range (t.length + 1)).map (fun j => j + k)
        = k :: (List.range t.length).map (fun j => j + (k + 1)) := by
      rw [List.range_succ_eq_map, List.map_cons, List.map_map]
      have h1 : (0 : Nat) + k = k := Nat.zero_add k
      have h2 : ((fun j => j + k) ∘ Nat.succ) = (fun j => j + (k + 1)) :=
        funext (fun j => by simp [Function.comp]; omega)
      rw [h1, h2]
    have hle :
        (((List.range t.length).map (fun j => j + (k + 1))).filter
          (fun i => decide (i ∈ I))).length ≤ t.length := by
      calc (((List.range t.length).map (fun j => j + (k + 1))).filter
              (fun i => decide (i ∈ I))).length
          ≤ ((List.range t.length).map (fun j => j + (k + 1))).length :=
            List.length_filter_le _ _
        _ = t.length := by rw [List.length_map, List.length_range]
    simp only [List.length_cons, hmap, List.filter_cons, decide_eq_true_eq]
    by_cases hk : k ∈ I
    · simp only [rmFrom, if_pos hk, List.length_cons]
      rw [ih (k + 1)]
      omega
    · simp only [rmFrom, if_neg hk, List.length_cons]
      rw [ih (k + 1)]
      omega

/-! ## Lemmas about flagged-index lists -/

/-- Every flagged index is at least the starting counter. -/
theorem flagsFrom_lower {α : Type} (P : α → Bool) (xs : List α) :
    ∀ (k i : Nat), i ∈ flagsFrom P k xs → k ≤ i := by
  induction xs with
  | nil => intro k i h; simp [flagsFrom] at h
  | cons x t ih =>
    intro k i h
    simp only [flagsFrom] at h
    by_cases hp : P x
    · rw [if_pos hp] at h
      exact Nat.le_of_succ_le (ih (k + 1) i h)
    · rw [if_neg hp] at h
      rcases List.mem_cons.mp h with he | ht
      · omega
      · exact Nat.le_of_succ_le (ih (k + 1) i ht)

/-- An index below the starting counter is never flagged. -/
theorem flagsFrom_not_mem_lt {α : Type} (P : α → Bool) (xs : List α)
    (k i : Nat) (h : i < k) : i ∉ flagsFrom P k xs := fun hm =>
  Nat.not_le_of_lt h (flagsFrom_lower P xs k i hm)

/-- Membership in the flagged-index list: exactly the in-range
positions whose entry fails the predicate. -/
theorem flagsFrom_mem {α : Type} (P : α → Bool) (d : α) (xs : List α) :
    ∀ (k i : Nat),
      i ∈ flagsFrom P k xs ↔
        k ≤ i ∧ i - k < xs.length ∧ P (xs.getD (i - k) d) = false := by
  induction xs with
  | nil => intro k i; simp [flagsFrom]
  | cons x t ih =>
    intro k i
    simp only [flagsFrom, List.length_cons]
    by_cases hp : P x
    · rw [if_pos hp, ih (k + 1)]
      constructor
      · rintro ⟨h1, h2, h3⟩
        refine ⟨by omega, by omega, ?_⟩
        have he : i - k = (i - (k + 1)) + 1 := by omega
        rw [he, List.getD_cons_succ]
        exact h3
      · rintro ⟨h1, h2, h3⟩
        rcases Nat.eq_or_lt_of_le h1 with he | hlt
        · exfalso
          have hz : i - k = 0 := by omega
          rw [hz, List.getD_cons_zero] at h3
          rw [h3] at hp
          exact Bool.false_ne_true hp
        · refine ⟨hlt, by omega, ?_⟩
          have he : i - k = (i - (k + 1)) + 1 := by omega
          rw [he, List.getD_cons_succ] at h3
          exact h3
    · rw [if_neg hp]
      simp only [List.mem_cons]
      rw [ih (k + 1)]
      constructor
      · rintro (he | ⟨h1, h2, h3⟩)
        · subst he
          refine ⟨Nat.le_refl i, by omega, ?_⟩
          have hz : i - i = 0 := by omega
          rw [hz, List.getD_cons_zero]
          exact Bool.eq_false_iff.mpr hp
        · refine ⟨by omega, by omega, ?_⟩
          have he : i - k = (i - (k + 1)) + 1 := by omega
          rw [he, List.getD_cons_succ]
          exact h3
      · rintro ⟨h1, h2, h3⟩
        rcases Nat.eq_or_lt_of_le h1 with he | hlt
        · left; omega
        · right
          refine ⟨hlt, by omega, ?_⟩
          have he : i - k = (i - (k + 1)) + 1 := by omega
          rw [he, List.getD_cons_succ] at h3
          exact h3

/-! ## Characterizations of the two validators -/

/-- The transformed date column keeps, in order, the leading four
characters of exactly the rows whose parse succeeds. -/
theorem column_to_date_go_fst (col : List String) :
    ∀ (k : Nat), (column_to_date_go col k).1 =
      (col.filter date_valid).map (fun s => pyTake s 4) := by
  induction col with
  | nil => intro k; rfl
  | cons r t ih =>
    intro k
    simp only [column_to_date_go, List.filter_cons]
    by_cases h : date_valid r
    · simp [h, ih (k + 1)]
    · simp [h, ih (k + 1)]

/-- The bad-date indices are the flagged indices of the parse test. -/
theorem column_to_date_go_snd (col : List String) :
    ∀ (k : Nat), (column_to_date_go col k).2 = flagsFrom date_valid k col := by
  induction col with
  | nil => intro k; rfl
  | cons r t ih =>
    intro k
    simp only [column_to_date_go, flagsFrom]
    by_cases h : date_valid r
    · simp [h, ih (k + 1)]
    · simp [h, ih (k + 1)]

/-- The transformed date column never gets longer than its input. -/
theorem column_to_date_fst_length_le (col : List String) :
    (column_to_date col).1.length ≤ col.length := by
  rw [column_to_date, column_to_date_go_fst col 0, List.length_map]
  exact List.length_filter_le _ _

/-- The transformed location column is the pointwise transformation of
the input column. -/
theorem transform_locations_go_fst (col : List String) :
    ∀ (k : Nat), (transform_locations_go col k).1 = col.map locTransformVal := by
  induction col with
  | nil => intro k; rfl
  | cons r t ih =>
    intro k
    simp only [transform_locations_go, List.map_cons]
    rw [ih (k + 1)]

/-- The bad-location indices are the flagged indices of `locOK`. -/
theorem transform_locations_go_snd (col : List String) :
    ∀ (k : Nat), (transform_locations_go col k).2 = flagsFrom locOK k col := by
  induction col with
  | nil => intro k; rfl
  | cons r t ih =>
    intro k
    simp only [transform_locations_go, flagsFrom]
    by_cases h : locOK r
    · simp [h, ih (k + 1)]
    · simp [h, ih (k + 1)]

/-! ## Fusing the two filter passes -/

/-- A single pass removing the concatenation of a position set and the
flags of an aligned (or longer) column keeps exactly the entries whose
position is unflagged on both counts. -/
theorem rmFrom_append_flags {α β : Type} (D : List Nat) (P : β → Bool) :
    ∀ (xs : List α) (ls : List β) (k : Nat), xs.length ≤ ls.length →
      rmFrom (D ++ flagsFrom P k ls) k xs = keepBoth D P k xs ls := by
  intro xs
  induction xs with
  | nil => intro ls k h; cases ls <;> rfl
  | cons x xs ih =>
    intro ls k h
    cases ls with
    | nil => simp at h
    | cons l ls =>
      have hle : xs.length ≤ ls.length := by
        simpa using Nat.le_of_succ_le_succ h
      by_cases hp : P l
      · have hF : flagsFrom P k (l :: ls) = flagsFrom P (k + 1) ls := by
          simp [flagsFrom, hp]
        rw [hF]
        by_cases hD : k ∈ D
        · have hc : k ∈ D ++ flagsFrom P (k + 1) ls := List.mem_append_left _ hD
          simp only [rmFrom, if_pos hc]
          rw [ih ls (k + 1) hle]
          have hg : (decide (k ∈ D) || !P l) = true := by simp [hD]
          simp only [keepBoth, hg]
          simp
        · have hc : k ∉ D ++ flagsFrom P (k + 1) ls := by
            intro hm
            rcases List.mem_append.mp hm with hm | hm
            · exact hD hm
            · exact flagsFrom_not_mem_lt P ls (k + 1) k (Nat.lt_succ_self k) hm
          simp only [rmFrom, if_neg hc, keepBoth]
          have hg : (decide (k ∈ D) || !P l) = false := by
            simp [hD, hp]
          rw [hg]
          simp only [Bool.false_eq_true, if_false]
          rw [ih ls (k + 1) hle]
      · have hF : flagsFrom P k (l :: ls) = k :: flagsFrom P (k + 1) ls := by
          simp [flagsFrom, hp]
        rw [hF]
        have hc : k ∈ D ++ k :: flagsFrom P (k + 1) ls :=
          List.mem_append_right _ (List.mem_cons_self _ _)
        simp only [rmFrom, if_pos hc]
        have hcongr :
            rmFrom (D ++ k :: flagsFrom P (k + 1) ls) (k + 1) xs
              = rmFrom (D ++ flagsFrom P (k + 1) ls) (k + 1) xs := by
          apply rmFrom_congr
          intro i hi
          simp only [List.mem_append, List.mem_cons]
          constructor
          · rintro (hm | hm | hm)
            · exact Or.inl hm
            · omega
            · exact Or.inr hm
          · rintro (hm | hm)
            · exact Or.inl hm
            · exact Or.inr (Or.inr hm)
        rw [hcongr, ih ls (k + 1) hle]
        have hg : (decide (k ∈ D) || !P l) = true := by
          simp [hp]
        simp only [keepBoth, hg]
        simp

/-- Running the position filter first and then removing the flags
computed on the already-filtered column equals the single fused pass. -/
theorem rmFrom_two_pass {α β : Type} (D : List Nat) (P : β → Bool) :
    ∀ (ls : List β) (xs : List α) (k j : Nat), xs.length ≤ ls.length →
      rmFrom (flagsFrom P j (rmFrom D k ls)) j (rmFrom D k xs)
        = keepBoth D P k xs ls := by
  intro ls
  induction ls with
  | nil =>
    intro xs k j h
    have hx : xs = [] := List.length_eq_zero.mp (Nat.le_zero.mp h)
    subst hx
    rfl
  | cons l ls ih =>
    intro xs k j h
    cases xs with
    | nil => simp [rmFrom, flagsFrom, keepBoth]
    | cons x xs =>
      have hle : xs.length ≤ ls.length := by
        simpa using Nat.le_of_succ_le_succ h
      by_cases hD : k ∈ D
      · have e1 : rmFrom D k (l :: ls) = rmFrom D (k + 1) ls := by
          simp [rmFrom, hD]
        have e2 : rmFrom D k (x :: xs) = rmFrom D (k + 1) xs := by
          simp [rmFrom, hD]
        rw [e1, e2, ih xs (k + 1) j hle]
        have hg : (decide (k ∈ D) || !P l) = true := by simp [hD]
        simp only [keepBoth, hg]
        simp
      · have e1 : rmFrom D k (l :: ls) = l :: rmFrom D (k + 1) ls := by
          simp [rmFrom, hD]
        have e2 : rmFrom D k (x :: xs) = x :: rmFrom D (k + 1) xs := by
          simp [rmFrom, hD]
        rw [e1, e2]
        by_cases hp : P l
        · have e3 : flagsFrom P j (l :: rmFrom D (k + 1) ls)
              = flagsFrom P (j + 1) (rmFrom D (k + 1) ls) := by
            simp [flagsFrom, hp]
          rw [e3]
          have hnm : j ∉ flagsFrom P (j + 1) (rmFrom D (k + 1) ls) :=
            flagsFrom_not_mem_lt P _ (j + 1) j (Nat.lt_succ_self j)
          simp only [rmFrom, if_neg hnm]
          rw [ih xs (k + 1) (j + 1) hle]
          have hg : (decide (k ∈ D) || !P l) = false := by simp [hD, hp]
          simp only [keepBoth, hg]
          simp
        · have e3 : flagsFrom P j (l :: rmFrom D (k + 1) ls)
              = j :: flagsFrom P (j + 1) (rmFrom D (k + 1) ls) := by
            simp [flagsFrom, hp]
          rw [e3]
          have hj : j ∈ j :: flagsFrom P (j + 1) (rmFrom D (k + 1) ls) :=
            List.mem_cons_self _ _
          simp only [rmFrom, if_pos hj]
          have hcongr :
              rmFrom (j :: flagsFrom P (j + 1) (rmFrom D (k + 1) ls)) (j + 1)
                  (rmFrom D (k + 1) xs)
                = rmFrom (flagsFrom P (j + 1) (rmFrom D (k + 1) ls)) (j + 1)
                  (rmFrom D (k + 1) xs) := by
            apply rmFrom_congr
            intro i hi
            simp only [List.mem_cons]
            constructor
            · rintro (hm | hm)
              · omega
              · exact hm
            · exact fun hm => Or.inr hm
          rw [hcongr, ih xs (k + 1) (j + 1) hle]
          have hg : (decide (k ∈ D) || !P l) = true := by simp [hp]
          simp only [keepBoth, hg]
          simp

/-- The code's two sequential filter passes (location flags computed on
the already-trimmed column) agree with one pass removing the
concatenated index lists computed on the untrimmed column. -/
theorem rmFrom_fuse {α β : Type} (D : List Nat) (P : β → Bool)
    (xs : List α) (ls : List β) (h : xs.length ≤ ls.length) :
    rmFrom (flagsFrom P 0 (rmFrom D 0 ls)) 0 (rmFrom D 0 xs)
      = rmFrom (D ++ flagsFrom P 0 ls) 0 xs :=
  (rmFrom_two_pass D P ls xs 0 0 h).trans
    (rmFrom_append_flags D P xs ls 0 h).symm

/-! ## Lemmas about splitting and the line parser -/

theorem column_names_length : column_names.length = 6 := rfl

/-- A split always produces at least one group. -/
theorem splitCharAux_ne_nil (sep : Char) (cs : List Char) :
    splitCharAux sep cs ≠ [] := by
  cases cs with
  | nil => simp [splitCharAux]
  | cons c rest =>
    simp only [splitCharAux]
    cases h : splitCharAux sep rest with
    | nil => simp
    | cons g gs => by_cases hc : c = sep <;> simp [hc]

/-- A split string has at least one field. -/
theorem pySplitChar_length_pos (sep : Char) (s : String) :
    0 < (pySplitChar sep s).length := by
  rw [pySplitChar, List.length_map]
  cases h : splitCharAux sep s.data with
  | nil => exact absurd h (splitCharAux_ne_nil sep s.data)
  | cons g gs => simp

/-- If splitting yields a single group, that group is the whole input. -/
theorem splitCharAux_singleton (sep : Char) :
    ∀ (cs g : List Char), splitCharAux sep cs = [g] → g = cs := by
  intro cs
  induction cs with
  | nil =>
    intro g h
    simp only [splitCharAux] at h
    injection h with h1 h2
    exact h1.symm
  | cons c rest ih =>
    intro g h
    simp only [splitCharAux] at h
    split at h
    next heq => exact absurd heq (splitCharAux_ne_nil sep rest)
    next g0 gs heq =>
      by_cases hc : c = sep
      · rw [if_pos hc] at h
        simp at h
      · rw [if_neg hc] at h
        injection h with h1 h2
        subst h2
        have hg0 := ih g0 heq
        subst hg0
        exact h1.symm

/-- If a string splits into exactly one part, that part is the string
itself (Python: a comma-free `row.split(',')` is `[row]`). -/
theorem pySplitChar_singleton (sep : Char) (s t : String)
    (h : pySplitChar sep s = [t]) : t = s := by
  rw [pySplitChar] at h
  cases haux : splitCharAux sep s.data with
  | nil => exact absurd haux (splitCharAux_ne_nil sep s.data)
  | cons g gs =>
    rw [haux] at h
    simp only [List.map_cons] at h
    injection h with h1 h2
    have hgs : gs = [] := List.map_eq_nil_iff.mp h2
    subst hgs
    have hg : g = s.data := splitCharAux_singleton sep s.data g haux
    rw [← h1, hg]

/-- Setting position `n` and truncating to `n + 1` entries appends the
new value after the first `n` entries. -/
theorem set_take_succ {α : Type} :
    ∀ (n : Nat) (l : List α) (j : α), n < l.length →
      (l.set n j).take (n + 1) = l.take n ++ [j] := by
  intro n
  induction n with
  | zero =>
    intro l j h
    cases l with
    | nil => simp at h
    | cons x t => simp
  | succ n ih =>
    intro l j h
    cases l with
    | nil => simp at h
    | cons x t =>
      simp only [List.set_cons_succ, List.take_succ_cons,
        List.cons_append]
      rw [ih t j (by simpa using Nat.lt_of_succ_lt_succ h)]

/-- The repaired line is the first five fields followed by the merged
long-description field. -/
theorem fix_long_description_eq (l : List String) (h : 6 ≤ l.length) :
    fix_long_description l =
      l.take 5 ++
        [String.intercalate "  "
          (((l.drop 5).map pyStrip).filter (fun s => s ≠ ""))] := by
  have h5 : 5 < l.length := by omega
  simpa [fix_long_description, column_names] using
    set_take_succ 5 l
      (String.intercalate "  " (((l.drop 5).map pyStrip).filter (fun s => s ≠ "")))
      h5

/-- Repairing a long line yields exactly six fields. -/
theorem fix_long_description_length (l : List String) (h : 6 ≤ l.length) :
    (fix_long_description l).length = 6 := by
  rw [fix_long_description_eq l h]
  simp only [List.length_append, List.length_take, List.length_cons,
    List.length_nil]
  omega

/-! ## Lemmas about the loader -/

theorem appendCols_len_occ (t : Table String) (sl : List String) :
    (appendCols t sl).date_occurred.length =
      t.date_occurred.length + (if 0 < sl.length then 1 else 0) := by
  by_cases h : 0 < sl.length <;> simp [appendCols, h]

theorem appendCols_len_rep (t : Table String) (sl : List String) :
    (appendCols t sl).date_reported.length =
      t.date_reported.length + (if 1 < sl.length then 1 else 0) := by
  by_cases h : 1 < sl.length <;> simp [appendCols, h]

theorem appendCols_len_loc (t : Table String) (sl : List String) :
    (appendCols t sl).location.length =
      t.location.length + (if 2 < sl.length then 1 else 0) := by
  by_cases h : 2 < sl.length <;> simp [appendCols, h]

theorem appendCols_len_short (t : Table String) (sl : List String) :
    (appendCols t sl).short_description.length =
      t.short_description.length + (if 3 < sl.length then 1 else 0) := by
  by_cases h : 3 < sl.length <;> simp [appendCols, h]

theorem appendCols_len_dur (t : Table String) (sl : List String) :
    (appendCols t sl).duration.length =
      t.duration.length + (if 4 < sl.length then 1 else 0) := by
  by_cases h : 4 < sl.length <;> simp [appendCols, h]

theorem appendCols_len_long (t : Table String) (sl : List String) :
    (appendCols t sl).long_description.length =
      t.long_description.length + (if 5 < sl.length then 1 else 0) := by
  by_cases h : 5 < sl.length <;> simp [appendCols, h]

/-- Loader characterization: with no structural error every column
grows by one entry per line; with a structural error the reported
counter is the 0-based index of the first bad line, the bad line's
leading fields are still appended, and the first and last columns end
up with different lengths. -/
theorem load_go_spec :
    ∀ (lines : List String) (t : Table String) (k : Nat),
      ((load_go lines t k).2 = none →
        (load_go lines t k).1.date_occurred.length =
            t.date_occurred.length + lines.length ∧
        (load_go lines t k).1.date_reported.length =
            t.date_reported.length + lines.length ∧
        (load_go lines t k).1.location.length =
            t.location.length + lines.length ∧
        (load_go lines t k).1.short_description.length =
            t.short_description.length + lines.length ∧
        (load_go lines t k).1.duration.length =
            t.duration.length + lines.length ∧
        (load_go lines t k).1.long_description.length =
            t.long_description.length + lines.length) ∧
      (∀ j, (load_go lines t k).2 = some j →
        k ≤ j ∧ j - k < lines.length ∧
        structBad (lines.getD (j - k) "") = true ∧
        (∀ i, i < j - k → structBad (lines.getD i "") = false) ∧
        (load_go lines t k).1.date_occurred.length =
            t.date_occurred.length + (j - k) + 1 ∧
        (load_go lines t k).1.long_description.length =
            t.long_description.length + (j - k)) := by
  intro lines
  induction lines with
  | nil =>
    intro t k
    constructor
    · intro _
      simp [load_go]
    · intro j hj
      simp [load_go] at hj
  | cons line rest ih =>
    intro t k
    by_cases h6 : column_names.length < (pySplitChar '\t' line).length
    · -- long line: repaired to exactly six fields, accepted
      have h6' : 6 < (pySplitChar '\t' line).length := h6
      have hfl : (fix_long_description (pySplitChar '\t' line)).length = 6 :=
        fix_long_description_length _ (Nat.le_of_lt h6')
      have hnb : ¬ (fix_long_description (pySplitChar '\t' line)).length
          < column_names.length := by
        rw [hfl, column_names_length]
        omega
      have he : load_go (line :: rest) t k =
          load_go rest
            (appendCols t (fix_long_description (pySplitChar '\t' line)))
            (k + 1) := by
        simp only [load_go, if_pos h6, if_neg hnb]
      have hsb : structBad line = false := by
        simp only [structBad, decide_eq_false_iff_not]
        omega
      have hocc := appendCols_len_occ t (fix_long_description (pySplitChar '\t' line))
      have hrep := appendCols_len_rep t (fix_long_description (pySplitChar '\t' line))
      have hloc := appendCols_len_loc t (fix_long_description (pySplitChar '\t' line))
      have hsho := appendCols_len_short t (fix_long_description (pySplitChar '\t' line))
      have hdur := appendCols_len_dur t (fix_long_description (pySplitChar '\t' line))
      have hlon := appendCols_len_long t (fix_long_description (pySplitChar '\t' line))
      rw [hfl] at hocc hrep hloc hsho hdur hlon
      simp only [show ((0:Nat) < 6) = True by simp, show ((1:Nat) < 6) = True by simp,
        show ((2:Nat) < 6) = True by simp, show ((3:Nat) < 6) = True by simp,
        show ((4:Nat) < 6) = True by simp, show ((5:Nat) < 6) = True by simp,
        if_true] at hocc hrep hloc hsho hdur hlon
      rw [he]
      obtain ⟨ihn, ihs⟩ :=
        ih (appendCols t (fix_long_description (pySplitChar '\t' line))) (k + 1)
      constructor
      · intro hnone
        obtain ⟨a, b, c, d, e, f⟩ := ihn hnone
        rw [hocc] at a; rw [hrep] at b; rw [hloc] at c
        rw [hsho] at d; rw [hdur] at e; rw [hlon] at f
        simp only [List.length_cons]
        refine ⟨by omega, by omega, by omega, by omega, by omega, by omega⟩
      · intro j hj
        obtain ⟨hk, hlt, hbad, hpre, ha, hb⟩ := ihs j hj
        have hjk : j - k = (j - (k + 1)) + 1 := by omega
        refine ⟨by omega, by simp [List.length_cons]; omega, ?_, ?_, ?_, ?_⟩
        · rw [hjk, List.getD_cons_succ]
          exact hbad
        · intro i hi
          cases i with
          | zero => simpa [List.getD_cons_zero] using hsb
          | succ m =>
            rw [List.getD_cons_succ]
            exact hpre m (by omega)
        · rw [hocc] at ha
          omega
        · rw [hlon] at hb
          omega
    · -- the line is not repaired
      by_cases hb : (pySplitChar '\t' line).length < column_names.length
      · -- short line: structural parse error
        have he : load_go (line :: rest) t k =
            (appendCols t (pySplitChar '\t' line), some k) := by
          simp only [load_go, if_neg h6, if_pos hb]
        have hsb : structBad line = true := by
          simp only [structBad, decide_eq_true_eq]
          have := hb
          rw [column_names_length] at this
          omega
        rw [he]
        constructor
        · intro hnone
          simp at hnone
        · intro j hj
          have hjk : j = k := by
            simpa using hj.symm
          subst hjk
          have hz : j - j = 0 := by omega
          refine ⟨Nat.le_refl j, by simp [hz], ?_, ?_, ?_, ?_⟩
          · rw [hz, List.getD_cons_zero]
            exact hsb
          · intro i hi
            omega
          · rw [appendCols_len_occ, hz]
            have hp : 0 < (pySplitChar '\t' line).length :=
              pySplitChar_length_pos '\t' line
            simp [hp]
          · rw [appendCols_len_long, hz]
            have hn5 : ¬ 5 < (pySplitChar '\t' line).length := by
              rw [column_names_length] at hb
              omega
            simp [hn5]
      · -- exactly six fields: accepted unchanged
        have he : load_go (line :: rest) t k =
            load_go rest (appendCols t (pySplitChar '\t' line)) (k + 1) := by
          simp only [load_go, if_neg h6, if_neg hb]
        have hlen : (pySplitChar '\t' line).length = 6 := by
          rw [column_names_length] at h6 hb
          omega
        have hsb : structBad line = false := by
          simp only [structBad, decide_eq_false_iff_not]
          omega
        have hocc := appendCols_len_occ t (pySplitChar '\t' line)
        have hrep := appendCols_len_rep t (pySplitChar '\t' line)
        have hloc := appendCols_len_loc t (pySplitChar '\t' line)
        have hsho := appendCols_len_short t (pySplitChar '\t' line)
        have hdur := appendCols_len_dur t (pySplitChar '\t' line)
        have hlon := appendCols_len_long t (pySplitChar '\t' line)
        rw [hlen] at hocc hrep hloc hsho hdur hlon
        simp only [show ((0:Nat) < 6) = True by simp, show ((1:Nat) < 6) = True by simp,
          show ((2:Nat) < 6) = True by simp, show ((3:Nat) < 6) = True by simp,
          show ((4:Nat) < 6) = True by simp, show ((5:Nat) < 6) = True by simp,
          if_true] at hocc hrep hloc hsho hdur hlon
        rw [he]
        obtain ⟨ihn, ihs⟩ := ih (appendCols t (pySplitChar '\t' line)) (k + 1)
        constructor
        · intro hnone
          obtain ⟨a, b, c, d, e, f⟩ := ihn hnone
          rw [hocc] at a; rw [hrep] at b; rw [hloc] at c
          rw [hsho] at d; rw [hdur] at e; rw [hlon] at f
          simp only [List.length_cons]
          refine ⟨by omega, by omega, by omega, by omega, by omega, by omega⟩
        · intro j hj
          obtain ⟨hk, hlt, hbad, hpre, ha, hb2⟩ := ihs j hj
          have hjk : j - k = (j - (k + 1)) + 1 := by omega
          refine ⟨by omega, by simp [List.length_cons]; omega, ?_, ?_, ?_, ?_⟩
          · rw [hjk, List.getD_cons_succ]
            exact hbad
          · intro i hi
            cases i with
            | zero => simpa [List.getD_cons_zero] using hsb
            | succ m =>
              rw [List.getD_cons_succ]
              exact hpre m (by omega)
          · rw [hocc] at ha
            omega
          · rw [hlon] at hb2
            omega

/-- A single filter pass on one column removes exactly the distinct
in-range flagged positions. -/
theorem removeIndices_length {α : Type} (xs : List α) (I : List Nat) :
    (removeIndices xs I).length = xs.length - inRangeCount I xs.length := by
  rw [removeIndices, rmFrom_length, inRangeCount]
  have hm : (List.range xs.length).map (fun j => j + 0) = List.range xs.length := by
    simp
  rw [hm]

/-! ## Claim theorems -/

/-- C1. The claim says every transformation step keeps all six column
sequences equal length — in particular that a date validation failure
flags the row but does not drop it.  The code drops it: on a one-row
table whose occurred date is unparseable, the transformed occurred
column is empty while the reported column keeps one entry, so the
table is no longer aligned (the flagged index 0 is still reported for
the later trim, which then removes a wrong row).  This theorem
evaluates the code at that failing input. -/
theorem C1_date_transform_drops_row :
    (transform_dates (⟨["1987-06-04"], ["19870604"], ["Ithaca, NY"],
        ["lights"], ["5 min."], ["seen overhead"]⟩ : Table String)).1.date_occurred.length = 0 ∧
    (transform_dates (⟨["1987-06-04"], ["19870604"], ["Ithaca, NY"],
        ["lights"], ["5 min."], ["seen overhead"]⟩ : Table String)).1.date_reported.length = 1 ∧
    (transform_dates (⟨["1987-06-04"], ["19870604"], ["Ithaca, NY"],
        ["lights"], ["5 min."], ["seen overhead"]⟩ : Table String)).2 = [0] ∧
    ¬ wf (transform_dates (⟨["1987-06-04"], ["19870604"], ["Ithaca, NY"],
        ["lights"], ["5 min."], ["seen overhead"]⟩ : Table String)).1 := by
  refine ⟨by decide, by decide, by decide, ?_⟩
  intro h
  exact absurd h.1 (by decide)

/-- C2. The row filter: on every column the output length is the input
length minus the number of distinct in-range flagged indices, the
remaining entries keep their original relative order (sublist), and
only set membership of the index collection matters (duplicates and
order are irrelevant). -/
theorem C2_row_filter_spec (L : Type) (t : Table L) (I J : List Nat)
    (hIJ : ∀ n, n ∈ I ↔ n ∈ J) :
    ((trim_indices t I).date_occurred.length
        = t.date_occurred.length - inRangeCount I t.date_occurred.length ∧
     (trim_indices t I).date_reported.length
        = t.date_reported.length - inRangeCount I t.date_reported.length ∧
     (trim_indices t I).location.length
        = t.location.length - inRangeCount I t.location.length ∧
     (trim_indices t I).short_description.length
        = t.short_description.length - inRangeCount I t.short_description.length ∧
     (trim_indices t I).duration.length
        = t.duration.length - inRangeCount I t.duration.length ∧
     (trim_indices t I).long_description.length
        = t.long_description.length - inRangeCount I t.long_description.length) ∧
    ((trim_indices t I).date_occurred.Sublist t.date_occurred ∧
     (trim_indices t I).date_reported.Sublist t.date_reported ∧
     (trim_indices t I).location.Sublist t.location ∧
     (trim_indices t I).short_description.Sublist t.short_description ∧
     (trim_indices t I).duration.Sublist t.duration ∧
     (trim_indices t I).long_description.Sublist t.long_description) ∧
    trim_indices t I = trim_indices t J := by
  refine ⟨⟨removeIndices_length _ _, removeIndices_length _ _,
      removeIndices_length _ _, removeIndices_length _ _,
      removeIndices_length _ _, removeIndices_length _ _⟩,
    ⟨rmFrom_sublist I _ 0, rmFrom_sublist I _ 0, rmFrom_sublist I _ 0,
     rmFrom_sublist I _ 0, rmFrom_sublist I _ 0, rmFrom_sublist I _ 0⟩, ?_⟩
  have hc : ∀ (β : Type) (xs : List β), rmFrom I 0 xs = rmFrom J 0 xs :=
    fun β xs => rmFrom_congr I J xs 0 (fun i _ => hIJ i)
  simp only [trim_indices, removeIndices, Table.mk.injEq]
  exact ⟨hc _ _, hc _ _, hc _ _, hc _ _, hc _ _, hc _ _⟩

/-- Witness for C2 at a concrete table, with a duplicated, unsorted
index collection and its set-equal reordering. -/
theorem C2_row_filter_spec_witness :
    (∀ n, n ∈ ([0, 0, 2] : List Nat) ↔ n ∈ ([2, 0] : List Nat)) ∧
    trim_indices (⟨["a", "b", "c"], ["d", "e", "f"], ["g", "h", "i"],
        ["j", "k", "l"], ["m", "n", "o"], ["p", "q", "r"]⟩ : Table String) [0, 0, 2]
      = trim_indices (⟨["a", "b", "c"], ["d", "e", "f"], ["g", "h", "i"],
        ["j", "k", "l"], ["m", "n", "o"], ["p", "q", "r"]⟩ : Table String) [2, 0] := by
  have hIJ : ∀ n, n ∈ ([0, 0, 2] : List Nat) ↔ n ∈ ([2, 0] : List Nat) := by
    intro n
    simp only [List.mem_cons, List.not_mem_nil, or_false]
    omega
  exact ⟨hIJ,
    (C2_row_filter_spec String
      ⟨["a", "b", "c"], ["d", "e", "f"], ["g", "h", "i"],
       ["j", "k", "l"], ["m", "n", "o"], ["p", "q", "r"]⟩ [0, 0, 2] [2, 0] hIJ).2.2⟩

/-- C10. Filtering with an empty index collection is the identity on
the table. -/
theorem C10_trim_empty_identity (L : Type) (t : Table L) :
    trim_indices t [] = t := by
  obtain ⟨o, r, l, s, d, g⟩ := t
  simp only [trim_indices, removeIndices, rmFrom_nil_indices]

/-- A location row is flagged exactly when its split is not a two-part
split whose second part normalizes to a recognized state. -/
theorem locOK_false_iff (row : String) :
    locOK row = false ↔
      ¬((pySplitChar ',' row).length = 2 ∧
        pyStrip (pyUpper ((pySplitChar ',' row).getD 1 "")) ∈ states) := by
  simp only [locOK, Bool.and_eq_false_iff, decide_eq_false_iff_not,
    not_and_or]

/-- The flagged-index list of the location transformation. -/
theorem transform_locations_snd (t : Table String) :
    (transform_locations t).2 = flagsFrom locOK 0 t.location := by
  simp only [transform_locations]
  exact transform_locations_go_snd t.location 0

/-- The value column of the location transformation. -/
theorem transform_locations_fst_loc (t : Table String) :
    (transform_locations t).1.location = t.location.map locTransformVal := by
  simp only [transform_locations]
  exact transform_locations_go_fst t.location 0

/-- C3. The date validator: the transformed column consists of the
leading four characters of exactly the successfully parsed rows, a row
index is flagged exactly when its parse fails, `"19870604"` parses and
yields working value `"1987"`, and `"1987-06-04"` is flagged and is
absent from the post-filter column. -/
theorem C3_date_validator_spec (col : List String) (i : Nat) (d : String)
    (h : i < col.length) :
    ((column_to_date col).1 = (col.filter date_valid).map (fun s => pyTake s 4)) ∧
    (i ∈ (column_to_date col).2 ↔ date_valid (col.getD i d) = false) ∧
    strptimeYmd "19870604" = some (1987, 6, 4) ∧
    pyTake "19870604" 4 = "1987" ∧
    column_to_date ["19870604"] = (["1987"], []) ∧
    column_to_date ["1987-06-04"] = ([], [0]) ∧
    "1987-06-04" ∉ removeIndices (column_to_date ["19870604", "1987-06-04"]).1
        (column_to_date ["19870604", "1987-06-04"]).2 := by
  refine ⟨column_to_date_go_fst col 0, ?_, by decide, by decide, by decide,
    by decide, by decide⟩
  rw [column_to_date, column_to_date_go_snd col 0,
    flagsFrom_mem date_valid d col 0 i]
  simp only [Nat.zero_le, Nat.sub_zero, true_and]
  constructor
  · rintro ⟨_, hf⟩
    exact hf
  · intro hv
    exact ⟨h, hv⟩

/-- Witness for C3 at the flagged example cell. -/
theorem C3_date_validator_spec_witness :
    (0 < (["1987-06-04"] : List String).length) ∧
    (0 ∈ (column_to_date ["1987-06-04"]).2 ↔
      date_valid ((["1987-06-04"] : List String).getD 0 "") = false) :=
  ⟨by decide, (C3_date_validator_spec ["1987-06-04"] 0 "" (by decide)).2.1⟩

/-- C4. The location validator: a row index is flagged exactly when the
comma-split does not have two parts or the uppercased-and-trimmed
second part is not a recognized state; a one-part split stores the
original string unchanged; a two-part split stores the raw untrimmed
`{city, state}` record; the state set has 50 symbols; and on the
claim's examples `"Ithaca, NY"` yields `{city: "Ithaca", state: " NY"}`
unflagged while `"Ithaca, Ontario"` and `"Ithaca"` are flagged. -/
theorem C4_location_validator_spec (t : Table String) (i : Nat) (d : String)
    (h : i < t.location.length) :
    (i ∈ (transform_locations t).2 ↔
      ¬((pySplitChar ',' (t.location.getD i d)).length = 2 ∧
        pyStrip (pyUpper ((pySplitChar ',' (t.location.getD i d)).getD 1 ""))
          ∈ states)) ∧
    ((pySplitChar ',' (t.location.getD i d)).length = 1 →
      (transform_locations t).1.location.getD i (LocVal.str "")
        = LocVal.str (t.location.getD i d)) ∧
    ((pySplitChar ',' (t.location.getD i d)).length = 2 →
      (transform_locations t).1.location.getD i (LocVal.str "")
        = LocVal.cityState ((pySplitChar ',' (t.location.getD i d)).getD 0 "")
            ((pySplitChar ',' (t.location.getD i d)).getD 1 "")) ∧
    states.length = 50 ∧
    transform_locations_go ["Ithaca, NY", "Ithaca, Ontario", "Ithaca"] 0
      = ([LocVal.cityState "Ithaca" " NY", LocVal.cityState "Ithaca" " Ontario",
          LocVal.str "Ithaca"], [1, 2]) := by
  have hget : t.location.getD i d = t.location[i] :=
    List.getD_eq_getElem t.location d h
  have hmap : (transform_locations t).1.location.getD i (LocVal.str "")
      = locTransformVal t.location[i] := by
    rw [transform_locations_fst_loc]
    rw [List.getD_eq_getElem _ _ (by simpa using h), List.getElem_map]
  refine ⟨?_, ?_, ?_, by decide, by decide⟩
  · rw [transform_locations_snd, flagsFrom_mem locOK d t.location 0 i]
    simp only [Nat.zero_le, Nat.sub_zero, true_and]
    rw [locOK_false_iff]
    constructor
    · rintro ⟨_, hf⟩
      exact hf
    · intro hv
      exact ⟨h, hv⟩
  · intro h1
    rw [hget] at h1 ⊢
    rw [hmap]
    simp only [locTransformVal, if_pos h1]
    obtain ⟨x, hx⟩ := List.length_eq_one.mp h1
    rw [hx]
    simp only [List.getD_cons_zero]
    rw [pySplitChar_singleton ',' t.location[i] x hx]
  · intro h2
    rw [hget] at h2 ⊢
    rw [hmap]
    have hne : ¬ (pySplitChar ',' t.location[i]).length = 1 := by omega
    simp only [locTransformVal, if_neg hne]

/-- Witness for C4 at the accepted example cell. -/
theorem C4_location_validator_spec_witness :
    (0 < (⟨[], [], ["Ithaca, NY"], [], [], []⟩ : Table String).location.length) ∧
    (0 ∈ (transform_locations (⟨[], [], ["Ithaca, NY"], [], [], []⟩ : Table String)).2 ↔
      ¬((pySplitChar ','
          ((⟨[], [], ["Ithaca, NY"], [], [], []⟩ : Table String).location.getD 0 "")).length = 2 ∧
        pyStrip (pyUpper ((pySplitChar ','
          ((⟨[], [], ["Ithaca, NY"], [], [], []⟩ : Table String).location.getD 0 "")).getD 1 ""))
          ∈ states)) :=
  ⟨by decide,
    (C4_location_validator_spec (⟨[], [], ["Ithaca, NY"], [], [], []⟩ : Table String)
      0 "" (by decide)).1⟩

/-- C9. A location whose split has three or more parts is flagged, yet
still stores a two-field `{city, state}` record built from the first
two raw parts, silently discarding the rest. -/
theorem C9_many_part_location (t : Table String) (i : Nat) (d : String)
    (h : i < t.location.length)
    (h3 : 3 ≤ (pySplitChar ',' (t.location.getD i d)).length) :
    i ∈ (transform_locations t).2 ∧
    (transform_locations t).1.location.getD i (LocVal.str "")
      = LocVal.cityState ((pySplitChar ',' (t.location.getD i d)).getD 0 "")
          ((pySplitChar ',' (t.location.getD i d)).getD 1 "") := by
  have hget : t.location.getD i d = t.location[i] :=
    List.getD_eq_getElem t.location d h
  constructor
  · rw [transform_locations_snd, flagsFrom_mem locOK d t.location 0 i]
    refine ⟨Nat.zero_le i, by simpa using h, ?_⟩
    rw [Nat.sub_zero, locOK_false_iff]
    rintro ⟨ha, _⟩
    omega
  · rw [hget] at h3 ⊢
    rw [transform_locations_fst_loc,
      List.getD_eq_getElem _ _ (by simpa using h), List.getElem_map]
    simp only [locTransformVal, if_neg (by omega :
      ¬ (pySplitChar ',' t.location[i]).length = 1)]

/-- Witness for C9 at a concrete three-part location. -/
theorem C9_many_part_location_witness :
    (0 < (⟨[], [], ["Ithaca, NY, USA"], [], [], []⟩ : Table String).location.length) ∧
    (3 ≤ (pySplitChar ','
        ((⟨[], [], ["Ithaca, NY, USA"], [], [], []⟩ : Table String).location.getD 0 "")).length) ∧
    (0 ∈ (transform_locations (⟨[], [], ["Ithaca, NY, USA"], [], [], []⟩ : Table String)).2 ∧
      (transform_locations (⟨[], [], ["Ithaca, NY, USA"], [], [], []⟩ : Table String)).1.location.getD
          0 (LocVal.str "")
        = LocVal.cityState
            ((pySplitChar ','
              ((⟨[], [], ["Ithaca, NY, USA"], [], [], []⟩ : Table String).location.getD 0 "")).getD 0 "")
            ((pySplitChar ','
              ((⟨[], [], ["Ithaca, NY, USA"], [], [], []⟩ : Table String).location.getD 0 "")).getD 1 "")) :=
  ⟨by decide, by decide,
    C9_many_part_location (⟨[], [], ["Ithaca, NY, USA"], [], [], []⟩ : Table String)
      0 "" (by decide) (by decide)⟩

/-- C5. The line parser's long-description repair: for a tab-split with
more than six tokens, the result keeps the first five fields and joins
the stripped, non-empty remaining tokens with two spaces into a single
final field, so the repaired line has exactly six fields and an
accepted long line contributes exactly one value to every column; on
the claim's example the final field becomes
`"lights in the sky  very bright  moving slowly"`. -/
theorem C5_long_description_repair (l : List String) (t : Table String)
    (line : String) (hl : 6 < l.length)
    (hline : 6 < (pySplitChar '\t' line).length) :
    fix_long_description l
      = l.take 5 ++
        [String.intercalate "  "
          (((l.drop 5).map pyStrip).filter (fun s => s ≠ ""))] ∧
    (fix_long_description l).length = 6 ∧
    ((appendCols t (fix_long_description (pySplitChar '\t' line))).date_occurred.length
        = t.date_occurred.length + 1 ∧
     (appendCols t (fix_long_description (pySplitChar '\t' line))).date_reported.length
        = t.date_reported.length + 1 ∧
     (appendCols t (fix_long_description (pySplitChar '\t' line))).location.length
        = t.location.length + 1 ∧
     (appendCols t (fix_long_description (pySplitChar '\t' line))).short_description.length
        = t.short_description.length + 1 ∧
     (appendCols t (fix_long_description (pySplitChar '\t' line))).duration.length
        = t.duration.length + 1 ∧
     (appendCols t (fix_long_description (pySplitChar '\t' line))).long_description.length
        = t.long_description.length + 1) ∧
    fix_long_description ["a", "b", "c", "d", "e",
        "lights in the sky", "very bright", "moving slowly"]
      = ["a", "b", "c", "d", "e",
         "lights in the sky  very bright  moving slowly"] := by
  have h6 : 6 ≤ l.length := Nat.le_of_lt hl
  have hfl : (fix_long_description (pySplitChar '\t' line)).length = 6 :=
    fix_long_description_length _ (Nat.le_of_lt hline)
  refine ⟨fix_long_description_eq l h6, fix_long_description_length l h6,
    ⟨?_, ?_, ?_, ?_, ?_, ?_⟩, by decide⟩
  · rw [appendCols_len_occ, hfl]; simp
  · rw [appendCols_len_rep, hfl]; simp
  · rw [appendCols_len_loc, hfl]; simp
  · rw [appendCols_len_short, hfl]; simp
  · rw [appendCols_len_dur, hfl]; simp
  · rw [appendCols_len_long, hfl]; simp

/-- Witness for C5 at a concrete seven-token line. -/
theorem C5_long_description_repair_witness :
    (6 < (["a", "b", "c", "d", "e", "f", "g"] : List String).length) ∧
    (6 < (pySplitChar '\t' "a\tb\tc\td\te\tf\tg").length) ∧
    (fix_long_description ["a", "b", "c", "d", "e", "f", "g"]).length = 6 :=
  ⟨by decide, by decide,
    (C5_long_description_repair ["a", "b", "c", "d", "e", "f", "g"] emptyTable
      "a\tb\tc\td\te\tf\tg" (by decide) (by decide)).2.1⟩

/-- C6, counterexample. The claim says a load hitting a structural
parse error never returns a table with mismatched column lengths; on
the one-line file `"a\tb"` the loader appends the two available fields
to the first two columns before the error, leaving the first column
with one entry and the last with none. -/
theorem C6_counterexample :
    (load_data ["a\tb"]).2 = some 0 ∧
    (load_data ["a\tb"]).1.date_occurred.length = 1 ∧
    (load_data ["a\tb"]).1.long_description.length = 0 ∧
    (load_data ["a\tb"]).1.date_occurred.length ≠
      (load_data ["a\tb"]).1.long_description.length := by
  refine ⟨by decide, by decide, by decide, by decide⟩

/-- C6, amended. Without a structural error every column has one entry
per line; with a structural error at (0-based) line `j` the table holds
the `j` accepted rows plus the failing line's leading fields, so the
first column has length `j + 1` while the last has length `j` — the
column lengths mismatch. -/
theorem C6_load_partial_table (lines : List String) (j : Nat) :
    ((load_data lines).2 = none →
      (load_data lines).1.date_occurred.length = lines.length ∧
      (load_data lines).1.date_reported.length = lines.length ∧
      (load_data lines).1.location.length = lines.length ∧
      (load_data lines).1.short_description.length = lines.length ∧
      (load_data lines).1.duration.length = lines.length ∧
      (load_data lines).1.long_description.length = lines.length) ∧
    ((load_data lines).2 = some j →
      (load_data lines).1.date_occurred.length = j + 1 ∧
      (load_data lines).1.long_description.length = j) := by
  simp only [load_data]
  obtain ⟨hn, hs⟩ := load_go_spec lines emptyTable 0
  constructor
  · intro h
    obtain ⟨a, b, c, d, e, f⟩ := hn h
    exact ⟨by simpa [emptyTable] using a, by simpa [emptyTable] using b,
      by simpa [emptyTable] using c, by simpa [emptyTable] using d,
      by simpa [emptyTable] using e, by simpa [emptyTable] using f⟩
  · intro h
    obtain ⟨_, _, _, _, ha, hb⟩ := hs j h
    exact ⟨by simpa [emptyTable] using ha, by simpa [emptyTable] using hb⟩

/-- Witness for C6 (amended) at the concrete failing file. -/
theorem C6_load_partial_table_witness :
    (load_data ["a\tb"]).2 = some 0 ∧
    ((load_data ["a\tb"]).1.date_occurred.length = 0 + 1 ∧
     (load_data ["a\tb"]).1.long_description.length = 0) :=
  ⟨by decide, (C6_load_partial_table ["a\tb"] 0).2 (by decide)⟩

/-- C7, counterexample. The claim says the loader logs the offending
1-based line number; on a file whose second line (1-based line 2) is
structurally bad, the code logs its count of completed lines, `1`. -/
theorem C7_counterexample :
    (load_data ["a\tb\tc\td\te\tf", "short"]).2 = some 1 ∧
    ((some 1 : Option Nat) ≠ some 2) := by
  refine ⟨by decide, by decide⟩

/-- C7, amended. A structural parse error is absorbed inside the load
routine (the function still returns a table), and the number it
reports is the count of fully processed lines — the 0-based index of
the first structurally bad line, one less than its 1-based number. -/
theorem C7_load_error_absorbed (lines : List String) (j : Nat)
    (h : (load_data lines).2 = some j) :
    j < lines.length ∧ structBad (lines.getD j "") = true ∧
    (∀ i, i < j → structBad (lines.getD i "") = false) := by
  have hs := (load_go_spec lines emptyTable 0).2 j (by simpa [load_data] using h)
  obtain ⟨_, hlt, hbad, hpre, _, _⟩ := hs
  exact ⟨hlt, hbad, fun i hi => hpre i hi⟩

/-- Witness for C7 (amended) at the concrete failing file. -/
theorem C7_load_error_absorbed_witness :
    (load_data ["a\tb\tc\td\te\tf", "short"]).2 = some 1 ∧
    (1 < (["a\tb\tc\td\te\tf", "short"] : List String).length ∧
     structBad ((["a\tb\tc\td\te\tf", "short"] : List String).getD 1 "") = true ∧
     (∀ i, i < 1 →
       structBad ((["a\tb\tc\td\te\tf", "short"] : List String).getD i "") = false)) :=
  ⟨by decide,
    C7_load_error_absorbed ["a\tb\tc\td\te\tf", "short"] 1 (by decide)⟩

/-- C8. On an aligned table, running the date trim and then the
location trim (location flags computed on the already-trimmed table)
retains exactly the rows retained by one pass that removes the
concatenation of the two flag lists, both computed against the
untrimmed table. -/
theorem C8_filter_fusion (t : Table String) (h : wf t) :
    pipelineSequential t = pipelineUnion t := by
  obtain ⟨o, r, l, s, d, g⟩ := t
  obtain ⟨h1, h2, h3, h4, h5⟩ := h
  have hlo : (column_to_date o).1.length ≤ l.length :=
    le_trans (column_to_date_fst_length_le o) (le_of_eq h1)
  have hlr : (column_to_date r).1.length ≤ l.length :=
    le_trans (column_to_date_fst_length_le r) (le_of_eq h2)
  simp only [pipelineSequential, pipelineUnion, transform_dates,
    transform_locations, trim_indices, removeIndices,
    transform_locations_go_fst, transform_locations_go_snd, Table.mk.injEq]
  refine ⟨?_, ?_, ?_, ?_, ?_, ?_⟩
  · exact rmFrom_fuse _ locOK _ l hlo
  · exact rmFrom_fuse _ locOK _ l hlr
  · rw [← rmFrom_map]
    exact rmFrom_fuse _ locOK (l.map locTransformVal) l
      (le_of_eq (List.length_map l locTransformVal))
  · exact rmFrom_fuse _ locOK s l (le_of_eq h3)
  · exact rmFrom_fuse _ locOK d l (le_of_eq h4)
  · exact rmFrom_fuse _ locOK g l (le_of_eq h5)

/-- Witness for C8 on a concrete three-row table with one bad date and
one bad location. -/
theorem C8_filter_fusion_witness :
    wf (⟨["19870604", "1987-06-04", "19900101"],
         ["19870604", "19870604", "19870604"],
         ["Ithaca, NY", "Albany, NY", "Paris"],
         ["a", "b", "c"], ["d", "e", "f"], ["g", "h", "i"]⟩ : Table String) ∧
    pipelineSequential (⟨["19870604", "1987-06-04", "19900101"],
         ["19870604", "19870604", "19870604"],
         ["Ithaca, NY", "Albany, NY", "Paris"],
         ["a", "b", "c"], ["d", "e", "f"], ["g", "h", "i"]⟩ : Table String)
      = pipelineUnion (⟨["19870604", "1987-06-04", "19900101"],
         ["19870604", "19870604", "19870604"],
         ["Ithaca, NY", "Albany, NY", "Paris"],
         ["a", "b", "c"], ["d", "e", "f"], ["g", "h", "i"]⟩ : Table String) :=
  ⟨⟨rfl, rfl, rfl, rfl, rfl⟩,
    C8_filter_fusion _ ⟨rfl, rfl, rfl, rfl, rfl⟩⟩

end UFO
